import Mathlib

/-!
Verification of the `measured` package (getlantern/measured), a Go library
that wraps dialers/listeners/connections to measure throughput, errors and
latency, aggregates raw samples per reporting interval, and hands the
summaries to pluggable reporters.

The development shallowly embeds two layers of the source:

* `MeasuredV2` — the connection wrapper of `src/unnamed/part_002`
  (`conn` with `Stats`, `FirstError`, `track`, `Read`, `Write`, `Close`,
  `storeError`, `isTimeout`).  Concurrency between the caller thread and the
  per-connection tracking goroutine is modelled as an explicit interleaving
  of atomic steps over a connection state.
* `MeasuredV1` — the aggregation controller of `src/unnamed/part_001`
  (`Measured` with `run`, `reportLatency`, `reportTraffic`, `submitError`,
  `submitTraffic`, `newConn`, `Dialer`, `MeasuredListener.Accept`).

Machine integers: the Go code stores byte counts in `uint64`; where an
addition can overflow (interval totals in `reportTraffic`) the embedding
reduces modulo `2^64`.  Go `time.Duration` is a signed 64-bit count of
nanoseconds; latencies are nonnegative in this package, so they are
embedded as `Nat`.
-/

namespace MeasuredV2

/-- An error value returned by the underlying `net.Conn`.  `timeout` models
`isTimeout err` (src/unnamed/part_002 lines 146-152: `errors.As(err, &nerr)`
and `nerr.Timeout()`); `eof` models identity with the sentinel `io.EOF`
(compared by `err != io.EOF` in `Read`); `tag` distinguishes otherwise
identical errors. -/
structure NetErr where
  timeout : Bool
  eof : Bool
  tag : Nat
deriving Repr, DecidableEq

/-- Embeds `isTimeout` (src/unnamed/part_002 lines 146-152). -/
def isTimeout (e : NetErr) : Bool := e.timeout

/-- State of one wrapped connection (struct `conn`, src/unnamed/part_002
lines 46-56) together with the observable control state of its two
threads (the caller of `Close` and the `track` goroutine).

`sentTotal`/`recvTotal` are the lifetime byte totals held by the two
`rater`s.  The `rater` implementation is not part of the repository
snapshot; per the spec its per-direction total is the monotonic lifetime
sum of all bytes recorded by `advance`, and it is what `Stats` exposes as
`SentTotal`/`RecvTotal`.

* `firstErr` — the write-once first-error slot (`firstErr` guarded by `errMx`).
* `onceDone` — whether `closeOnce.Do` has consumed its one shot.
* `closedCh` — whether `close(closedCh)` has been executed.
* `underlyingClosed` — whether `c.Conn.Close()` has been invoked.
* `closeReturned` — whether the first call to `Close` has returned to its
  caller.
* `trackerExited` — whether the `track` goroutine has returned.
* `finalFlushes` — how many times the shutdown branch of `track` has run
  (final `calc` of both raters followed by `onFinish`).
* `calcs` — how many periodic (`time.After`) recomputes have run. -/
structure ConnState where
  sentTotal : Nat
  recvTotal : Nat
  firstErr : Option NetErr
  onceDone : Bool
  closedCh : Bool
  underlyingClosed : Bool
  closeReturned : Bool
  trackerExited : Bool
  finalFlushes : Nat
  calcs : Nat
deriving Repr, DecidableEq

/-- The state set up by `Wrap` (src/unnamed/part_002 lines 60-69): zero
counters, no error, channel open, tracking goroutine running. -/
def initConn : ConnState :=
  { sentTotal := 0, recvTotal := 0, firstErr := none, onceDone := false,
    closedCh := false, underlyingClosed := false, closeReturned := false,
    trackerExited := false, finalFlushes := 0, calcs := 0 }

/-- Embeds `storeError` (src/unnamed/part_002 lines 138-144): only the first
stored error is kept. -/
def storeError (c : ConnState) (e : NetErr) : ConnState :=
  match c.firstErr with
  | none => { c with firstErr := some e }
  | some _ => c

/-- Embeds `conn.Write` (src/unnamed/part_002 lines 110-118).  The
underlying connection's result is the pair `(n, err)`; the wrapper records
`n` bytes in the sent rater unconditionally, stores `err` unless it is nil
or a timeout, and returns the pair unchanged. -/
def Write (c : ConnState) (n : Nat) (err : Option NetErr) :
    ConnState × (Nat × Option NetErr) :=
  let c1 := { c with sentTotal := c.sentTotal + n }
  let c2 := match err with
    | some e => if isTimeout e then c1 else storeError c1 e
    | none => c1
  (c2, (n, err))

/-- Embeds `conn.Read` (src/unnamed/part_002 lines 120-128).  Like `Write`
but recording into the recv rater, and additionally never storing `io.EOF`. -/
def Read (c : ConnState) (n : Nat) (err : Option NetErr) :
    ConnState × (Nat × Option NetErr) :=
  let c1 := { c with recvTotal := c.recvTotal + n }
  let c2 := match err with
    | some e => if isTimeout e || e.eof then c1 else storeError c1 e
    | none => c1
  (c2, (n, err))

/-- Embeds `conn.Close` (src/unnamed/part_002 lines 130-136).  `uerr` is
what the underlying `c.Conn.Close()` would return.  The first call runs the
`closeOnce.Do` body — close the underlying connection, close `closedCh` —
and returns the underlying error; it returns to its caller right away,
without any synchronisation with the `track` goroutine.  A later call skips
the body, so the named return value `err` keeps its zero value `nil`. -/
def Close (c : ConnState) (uerr : Option NetErr) : ConnState × Option NetErr :=
  if c.onceDone then (c, none)
  else
    ({ c with onceDone := true, underlyingClosed := true, closedCh := true,
              closeReturned := true }, uerr)

/-- One iteration of the loop in `track` (src/unnamed/part_002 lines
90-108): if `closedCh` is closed, recompute both raters one last time, call
`onFinish` and exit; otherwise the `time.After` arm fires a periodic
recompute. -/
def trackStep (c : ConnState) : ConnState :=
  if c.trackerExited then c
  else if c.closedCh then
    { c with finalFlushes := c.finalFlushes + 1, trackerExited := true }
  else { c with calcs := c.calcs + 1 }

/-- An atomic step of the two-thread system: the application thread
performing a `Read`/`Write` (with the underlying connection's result given
by the oracle values carried in the step), the application thread calling
`Close`, or the `track` goroutine running one loop iteration. -/
inductive CStep where
  | read (n : Nat) (err : Option NetErr)
  | write (n : Nat) (err : Option NetErr)
  | closeCall (uerr : Option NetErr)
  | tracker
deriving Repr, DecidableEq

/-- State transition of one atomic step. -/
def step (c : ConnState) : CStep → ConnState
  | .read n err => (Read c n err).1
  | .write n err => (Write c n err).1
  | .closeCall uerr => (Close c uerr).1
  | .tracker => trackStep c

/-- Run a whole interleaving (schedule) of atomic steps. -/
def exec (c : ConnState) (tr : List CStep) : ConnState := tr.foldl step c

/-- The statistics snapshot (struct `Stats`, src/unnamed/part_002 lines
13-26) restricted to the total fields; `Stats()` (lines 71-77) obtains
`SentTotal`/`RecvTotal` from `rater.get`, whose total is the lifetime sum
accumulated by `advance`.  The floating-point rate fields and the wall-clock
`Duration` field are outside this embedding. -/
structure Stats where
  SentTotal : Nat
  RecvTotal : Nat
deriving Repr, DecidableEq

/-- Embeds `conn.Stats` (src/unnamed/part_002 lines 71-77), total fields. -/
def connStats (c : ConnState) : Stats :=
  { SentTotal := c.sentTotal, RecvTotal := c.recvTotal }

/-- Embeds `conn.FirstError` (src/unnamed/part_002 lines 79-84). -/
def FirstError (c : ConnState) : Option NetErr := c.firstErr

/-- The error, if any, that a step stores into the first-error slot:
non-timeout write errors, and non-timeout non-EOF read errors
(src/unnamed/part_002 lines 114 and 124). -/
def reportable : CStep → Option NetErr
  | .read _ (some e) => if isTimeout e || e.eof then none else some e
  | .write _ (some e) => if isTimeout e then none else some e
  | _ => none

end MeasuredV2

namespace MeasuredV1

/-- Embeds struct `Error` (src/unnamed/part_001 lines 30-34). -/
structure Error where
  ID : String
  Err : String
  Phase : String
deriving Repr, DecidableEq

set_option linter.dupNamespace false in
/-- Embeds struct `Latency` (src/unnamed/part_001 lines 37-40); the
`time.Duration` is a nonnegative nanosecond count.  The field keeps the
source's name, which coincides with the structure's. -/
structure Latency where
  ID : String
  Latency : Nat
deriving Repr, DecidableEq

/-- Embeds struct `Traffic` (src/unnamed/part_001 lines 43-47); byte counts
are `uint64` values, i.e. naturals below `2^64`. -/
structure Traffic where
  ID : String
  BytesIn : Nat
  BytesOut : Nat
deriving Repr, DecidableEq

/-- Embeds the closed `Stat` interface (src/unnamed/part_001 lines 25-27,
73-81): exactly the three sample kinds, discriminated by `statType`. -/
inductive Stat where
  | err (e : Error)
  | latency (l : Latency)
  | traffic (t : Traffic)
deriving Repr, DecidableEq

/-- Embeds struct `LatencyTracker` (src/unnamed/part_001 lines 50-56). -/
structure LatencyTracker where
  ID : String
  Min : Nat
  Max : Nat
  Percent95 : Nat
  Last : Nat
deriving Repr, DecidableEq

/-- Embeds struct `TrafficTracker` (src/unnamed/part_001 lines 59-71). -/
structure TrafficTracker where
  ID : String
  MinIn : Nat
  MaxIn : Nat
  Percent95In : Nat
  LastIn : Nat
  TotalIn : Nat
  MinOut : Nat
  MaxOut : Nat
  Percent95Out : Nat
  LastOut : Nat
  TotalOut : Nat
deriving Repr, DecidableEq

/-- `2^64`, the modulus of Go `uint64` arithmetic. -/
def U64 : Nat := 2 ^ 64

/-- Capacity of the buffered sample channel `chStat`
(`make(chan Stat, 10)`, src/unnamed/part_001 line 144). -/
def chStatCap : Nat := 10

/-- Embeds the `select`/`default` send on the buffered channel `chStat`
used by `submitError` and `submitTraffic` (src/unnamed/part_001 lines
422-426 and 436-440): if the buffer has free capacity the sample is
enqueued at the back, otherwise the channel state is untouched and the
returned flag records that the sample was dropped (and the drop logged).
Defined as a total function: submission never blocks and never panics. -/
def trySend (q : List Stat) (s : Stat) : List Stat × Bool :=
  if q.length < chStatCap then (q ++ [s], false) else (q, true)

/-- Embeds `strings.Trim(s, " ")`: remove leading and trailing spaces. -/
def trimSpaces (s : String) : String :=
  String.mk (((s.toList.dropWhile (fun c => c == ' ')).reverse.dropWhile
    (fun c => c == ' ')).reverse)

/-- Embeds the error-message normalisation in `submitError`
(src/unnamed/part_001 lines 410-415): split on `:`, take the last piece
(`strings.Split` never yields an empty slice, and natural subtraction
mirrors the `lastIndex < 0` guard), trim spaces. -/
def errorText (msg : String) : String :=
  let splitted := msg.splitOn ":"
  let lastIndex := splitted.length - 1
  trimSpaces (splitted.getD lastIndex "")

/-- Embeds `Measured.submitError` (src/unnamed/part_001 lines 409-427):
build the `Error` sample from the connection id, the normalised error text
and the phase, then try a non-blocking send; the Boolean is true when the
sample was dropped because the channel was full. -/
def submitError (q : List Stat) (connID : String) (msg : String)
    (phase : String) : List Stat × Bool :=
  trySend q (.err { ID := connID, Err := errorText msg, Phase := phase })

/-- Embeds `Measured.submitTraffic` (src/unnamed/part_001 lines 429-441). -/
def submitTraffic (q : List Stat) (connID : String) (bytesIn : Nat)
    (bytesOut : Nat) : List Stat × Bool :=
  trySend q (.traffic { ID := connID, BytesIn := bytesIn, BytesOut := bytesOut })

/-- A burst of submissions: each sample in turn is offered to the channel
with the non-blocking send. -/
def burst (q : List Stat) (ss : List Stat) : List Stat :=
  ss.foldl (fun acc s => (trySend acc s).1) q

/-- Comparison used by `trafficByBytesIn.Less`
(src/unnamed/part_001 lines 286-290). -/
def leIn (a b : Traffic) : Prop := a.BytesIn ≤ b.BytesIn

instance : DecidableRel leIn := fun a b => Nat.decLe a.BytesIn b.BytesIn

/-- Comparison used by `trafficByBytesOut.Less`
(src/unnamed/part_001 lines 292-296). -/
def leOut (a b : Traffic) : Prop := a.BytesOut ≤ b.BytesOut

instance : DecidableRel leOut := fun a b => Nat.decLe a.BytesOut b.BytesOut

/-- Comparison used by `latencySorter.Less`
(src/unnamed/part_001 lines 256-260). -/
def leLat (a b : Latency) : Prop := a.Latency ≤ b.Latency

instance : DecidableRel leLat := fun a b => Nat.decLe a.Latency b.Latency

instance : IsTotal Traffic leIn := ⟨fun a b => Nat.le_total a.BytesIn b.BytesIn⟩

instance : IsTrans Traffic leIn := ⟨fun _ _ _ => Nat.le_trans⟩

instance : IsTotal Traffic leOut := ⟨fun a b => Nat.le_total a.BytesOut b.BytesOut⟩

instance : IsTrans Traffic leOut := ⟨fun _ _ _ => Nat.le_trans⟩

instance : IsTotal Latency leLat := ⟨fun a b => Nat.le_total a.Latency b.Latency⟩

instance : IsTrans Latency leLat := ⟨fun _ _ _ => Nat.le_trans⟩

/-- Fallback `Traffic` record; the source never reads it because every
group produced by the identity map is nonempty. -/
def dfltTraffic : Traffic := { ID := "", BytesIn := 0, BytesOut := 0 }

/-- Fallback `Latency` record, likewise never read on a nonempty group. -/
def dfltLatency : Latency := { ID := "", Latency := 0 }

/-- The index `int(float64(n) * 0.95)` computed by `reportLatency` and
`reportTraffic` (src/unnamed/part_001 lines 274 and 312).  For every group
size arising here the IEEE-754 double computation agrees with
`floor(0.95 * n) = 19 * n / 20` in natural-number division: the closest
double to `0.95` is below `0.95` by about `4.4e-17`, so the product never
reaches the next integer, and it is close enough to `0.95 * n` that
truncation agrees with the exact floor. -/
def p95Index (n : Nat) : Nat := 19 * n / 20

/-- Embeds the body of the per-identity loop of `Measured.reportTraffic`
(src/unnamed/part_001 lines 304-323) applied to one identity `k` with group
`l` (the samples submitted for `k` in the interval, in submission order):
capture `LastIn`/`LastOut` from the final element before any sorting, fold
the `uint64` totals, sort ascending by `BytesIn` for `MinIn`/`MaxIn`/
`Percent95In`, then sort the same slice ascending by `BytesOut` for the
`Out` direction.  Go's `sort.Sort` is an unstable comparison sort; it is
embedded as insertion sort, which produces a permutation sorted under the
same `Less` comparison. -/
def trafficTrackerOf (k : String) (l : List Traffic) : TrafficTracker :=
  let lastT := l.getLast?.getD dfltTraffic
  let totalIn := l.foldl (fun acc d => (acc + d.BytesIn) % U64) 0
  let totalOut := l.foldl (fun acc d => (acc + d.BytesOut) % U64) 0
  let p95 := p95Index l.length
  let sIn := List.insertionSort leIn l
  let sOut := List.insertionSort leOut sIn
  { ID := k
    MinIn := (sIn.getD 0 dfltTraffic).BytesIn
    MaxIn := (sIn.getD (sIn.length - 1) dfltTraffic).BytesIn
    Percent95In := (sIn.getD p95 dfltTraffic).BytesIn
    LastIn := lastT.BytesIn
    TotalIn := totalIn
    MinOut := (sOut.getD 0 dfltTraffic).BytesOut
    MaxOut := (sOut.getD (sOut.length - 1) dfltTraffic).BytesOut
    Percent95Out := (sOut.getD p95 dfltTraffic).BytesOut
    LastOut := lastT.BytesOut
    TotalOut := totalOut }

/-- Embeds the body of the per-identity loop of `Measured.reportLatency`
(src/unnamed/part_001 lines 268-276): capture `Last` before sorting, sort
ascending by latency, read `Min`, `Max` and the 95th percentile. -/
def latencyTrackerOf (k : String) (l : List Latency) : LatencyTracker :=
  let lastL := l.getLast?.getD dfltLatency
  let s := List.insertionSort leLat l
  { ID := k
    Min := (s.getD 0 dfltLatency).Latency
    Max := (s.getD (s.length - 1) dfltLatency).Latency
    Percent95 := (s.getD (p95Index l.length) dfltLatency).Latency
    Last := lastL.Latency }

/-- The per-kind pending buffers of the run loop (fields `errorList`,
`latencyList`, `trafficList` of struct `Measured`, src/unnamed/part_001
lines 96-106). -/
structure RunState where
  errorList : List Error
  latencyList : List Latency
  trafficList : List Traffic
deriving Repr, DecidableEq

/-- The empty buffers (`New`, and what each tick resets to). -/
def emptyRun : RunState := { errorList := [], latencyList := [], trafficList := [] }

/-- An event consumed by one `select` iteration of `Measured.run`
(src/unnamed/part_001 lines 206-240): a sample received on `chStat`, a
tick of the reporting interval, or the stop signal. -/
inductive RunEvent where
  | stat (s : Stat)
  | tick
  | stop
deriving Repr, DecidableEq

/-- The `chStat` arm of `run` (src/unnamed/part_001 lines 208-216):
dispatch on `statType` and append the sample to the matching buffer. -/
def appendStat (st : RunState) : Stat → RunState
  | .err e => { st with errorList := st.errorList ++ [e] }
  | .latency l => { st with latencyList := st.latencyList ++ [l] }
  | .traffic t => { st with trafficList := st.trafficList ++ [t] }

/-- The three buffers swapped out by one tick (locals `newErrorList`,
`newLatencyList`, `newTrafficList` of `run`, src/unnamed/part_001 lines
218-223), handed to the asynchronous report dispatch. -/
structure Flush where
  errors : List Error
  latencies : List Latency
  traffics : List Traffic
deriving Repr, DecidableEq

/-- Embeds `Measured.run` (src/unnamed/part_001 lines 202-242) over a
sequence of events: a received sample is appended to its buffer; a tick
swaps all three buffers out for fresh empty ones and flushes the swapped
buffers (the goroutine then computes trackers from exactly these lists);
the stop signal exits the loop, discarding nothing already flushed.
Returns the final pending buffers and the flushes in tick order. -/
def run : RunState → List RunEvent → RunState × List Flush
  | st, [] => (st, [])
  | st, .stat s :: rest => run (appendStat st s) rest
  | st, .tick :: rest =>
    let r := run emptyRun rest
    (r.1, { errors := st.errorList, latencies := st.latencyList,
            traffics := st.trafficList } :: r.2)
  | st, .stop :: _ => (st, [])

/-- The traffic sample carried by an event, if any. -/
def trafficOf : RunEvent → Option Traffic
  | .stat (.traffic t) => some t
  | _ => none

/-- The error sample carried by an event, if any. -/
def errorOf : RunEvent → Option Error
  | .stat (.err e) => some e
  | _ => none

/-- The latency sample carried by an event, if any. -/
def latencyOf : RunEvent → Option Latency
  | .stat (.latency l) => some l
  | _ => none

/-- Specification-side definition (spec section 4.4 and the invariant of
section 3): the per-interval groups of samples of one kind, namely for each
tick the samples of that kind received since the previous tick (in
submission order), stopping at the stop signal.  `acc` is the pending
group. -/
def specIntervalSamples {σ : Type} (f : RunEvent → Option σ) :
    List σ → List RunEvent → List (List σ)
  | _, [] => []
  | acc, ev :: rest =>
    match ev with
    | .tick => acc :: specIntervalSamples f [] rest
    | .stop => []
    | .stat _ => specIntervalSamples f (acc ++ (f ev).toList) rest

/-- The outcome of one underlying accept/dial: an error or a raw
connection, of which the embedding only keeps the remote address
(`RemoteAddr()` may be nil). -/
structure RawConn where
  remoteAddr : Option String
deriving Repr, DecidableEq

/-- The wrapped connection built by `newConn` (struct `Conn`,
src/unnamed/part_001 lines 334-345): identified by the remote address,
with zeroed byte counters (the per-connection ticker goroutine it spawns
is not needed by the claims settled here). -/
structure Conn where
  ID : String
  BytesIn : Nat
  BytesOut : Nat
deriving Repr, DecidableEq

/-- Embeds `Measured.newConn` (src/unnamed/part_001 lines 347-366): a nil
`RemoteAddr()` panics (modelled as `Except.error` carrying the panic
message); otherwise the wrapped connection is returned with the remote
address as its identity. -/
def newConn (c : RawConn) : Except String Conn :=
  match c.remoteAddr with
  | none => .error "nil remote address is not allowed"
  | some ra => .ok { ID := ra, BytesIn := 0, BytesOut := 0 }

/-- The observable outcome of a wrapped dial or accept: the call panicked
while wrapping, failed with the underlying error, or produced a wrapped
connection. -/
inductive WrapOutcome where
  | panicked (msg : String)
  | failed (e : String)
  | wrapped (mc : Conn)
deriving Repr, DecidableEq

/-- Embeds the function returned by `Measured.Dialer` (src/unnamed/part_001
lines 170-179) applied to one dial whose underlying outcome is `r` (the
underlying error is carried as its message string): on failure, submit an
error sample with phase `dial` over the channel state `q` and return the
error untouched; on success, wrap via `newConn`.  Returns the outcome and
the new channel state. -/
def Dialer (r : Except String RawConn) (addr : String) (q : List Stat) :
    WrapOutcome × List Stat :=
  match r with
  | .error e => (.failed e, (submitError q addr e "dial").1)
  | .ok c =>
    match newConn c with
    | .error m => (.panicked m, q)
    | .ok mc => (.wrapped mc, q)

/-- Embeds `MeasuredListener.Accept` (src/unnamed/part_001 lines 194-200):
an underlying accept error is returned as is; an accepted connection is
wrapped via `newConn` (which may panic). -/
def Accept (r : Except String RawConn) : WrapOutcome :=
  match r with
  | .error e => .failed e
  | .ok c =>
    match newConn c with
    | .error m => .panicked m
    | .ok mc => .wrapped mc

end MeasuredV1

namespace MeasuredV2

/-- Invariant of the two-thread connection system: the final flush runs at
most once, exactly when the tracking goroutine has exited, and only after
the shutdown channel was closed; and the shutdown channel is closed only by
the first `Close`, which also closed the underlying connection and returned
to its caller. -/
def connInv (c : ConnState) : Prop :=
  c.finalFlushes ≤ 1 ∧
  (c.trackerExited = true ↔ c.finalFlushes = 1) ∧
  (c.finalFlushes = 1 → c.closedCh = true) ∧
  (c.closedCh = true →
    c.onceDone = true ∧ c.underlyingClosed = true ∧ c.closeReturned = true)

/-- The schedule in which the application thread performs the given
sequence of `Write` calls, each returning the paired byte count and error
from the underlying connection. -/
def writesOf (ws : List (Nat × Option NetErr)) : List CStep :=
  ws.map (fun p => CStep.write p.1 p.2)

end MeasuredV2

namespace MeasuredV2

theorem storeError_fields (c : ConnState) (e : NetErr) :
    (storeError c e).sentTotal = c.sentTotal ∧
    (storeError c e).recvTotal = c.recvTotal ∧
    (storeError c e).onceDone = c.onceDone ∧
    (storeError c e).closedCh = c.closedCh ∧
    (storeError c e).underlyingClosed = c.underlyingClosed ∧
    (storeError c e).closeReturned = c.closeReturned ∧
    (storeError c e).trackerExited = c.trackerExited ∧
    (storeError c e).finalFlushes = c.finalFlushes := by
  cases h : c.firstErr <;> simp [storeError, h]

theorem Write_fst_fields (c : ConnState) (n : Nat) (e : Option NetErr) :
    ((Write c n e).1).sentTotal = c.sentTotal + n ∧
    ((Write c n e).1).recvTotal = c.recvTotal ∧
    ((Write c n e).1).onceDone = c.onceDone ∧
    ((Write c n e).1).closedCh = c.closedCh ∧
    ((Write c n e).1).underlyingClosed = c.underlyingClosed ∧
    ((Write c n e).1).closeReturned = c.closeReturned ∧
    ((Write c n e).1).trackerExited = c.trackerExited ∧
    ((Write c n e).1).finalFlushes = c.finalFlushes := by
  cases e with
  | none => simp [Write]
  | some x =>
    by_cases hx : isTimeout x
    · simp [Write, hx]
    · cases hf : c.firstErr <;> simp [Write, hx, storeError, hf]

theorem Read_fst_fields (c : ConnState) (n : Nat) (e : Option NetErr) :
    ((Read c n e).1).sentTotal = c.sentTotal ∧
    ((Read c n e).1).recvTotal = c.recvTotal + n ∧
    ((Read c n e).1).onceDone = c.onceDone ∧
    ((Read c n e).1).closedCh = c.closedCh ∧
    ((Read c n e).1).underlyingClosed = c.underlyingClosed ∧
    ((Read c n e).1).closeReturned = c.closeReturned ∧
    ((Read c n e).1).trackerExited = c.trackerExited ∧
    ((Read c n e).1).finalFlushes = c.finalFlushes := by
  cases e with
  | none => simp [Read]
  | some x =>
    by_cases hx : isTimeout x || x.eof
    · simp [Read, hx]
    · cases hf : c.firstErr <;> simp [Read, hx, storeError, hf]

theorem step_firstErr (c : ConnState) (s : CStep) :
    (step c s).firstErr = c.firstErr.or (reportable s) := by
  cases s with
  | read n e =>
    cases e with
    | none => simp [step, Read, reportable]
    | some x =>
      by_cases hx : isTimeout x || x.eof
      · simp [step, Read, reportable, hx]
      · cases hf : c.firstErr <;>
          simp [step, Read, reportable, hx, storeError, hf]
  | write n e =>
    cases e with
    | none => simp [step, Write, reportable]
    | some x =>
      by_cases hx : isTimeout x
      · simp [step, Write, reportable, hx]
      · cases hf : c.firstErr <;>
          simp [step, Write, reportable, hx, storeError, hf]
  | closeCall u =>
    by_cases h : c.onceDone <;> simp [step, Close, reportable, h]
  | tracker =>
    by_cases h : c.trackerExited
    · simp [step, trackStep, reportable, h]
    · by_cases h2 : c.closedCh <;> simp [step, trackStep, reportable, h, h2]

theorem exec_firstErr (tr : List CStep) (c : ConnState) :
    (exec c tr).firstErr = c.firstErr.or ((tr.filterMap reportable).head?) := by
  induction tr generalizing c with
  | nil => simp [exec]
  | cons s rest ih =>
    have hstep : exec c (s :: rest) = exec (step c s) rest := by
      simp [exec, List.foldl_cons]
    rw [hstep, ih, step_firstErr]
    cases hr : reportable s with
    | none => simp [List.filterMap_cons, hr]
    | some e =>
      cases hc : c.firstErr <;> simp [List.filterMap_cons, hr, hc]

theorem connInv_init : connInv initConn := by
  constructor
  · decide
  constructor
  · decide
  constructor
  · decide
  · decide

theorem connInv_of_eq (c c' : ConnState)
    (hff : c'.finalFlushes = c.finalFlushes)
    (hte : c'.trackerExited = c.trackerExited)
    (hcc : c'.closedCh = c.closedCh)
    (hod : c'.onceDone = c.onceDone)
    (huc : c'.underlyingClosed = c.underlyingClosed)
    (hcr : c'.closeReturned = c.closeReturned)
    (h : connInv c) : connInv c' := by
  obtain ⟨h1, h2, h3, h4⟩ := h
  refine ⟨?_, ?_, ?_, ?_⟩
  · rw [hff]; exact h1
  · rw [hte, hff]; exact h2
  · rw [hff, hcc]; exact h3
  · rw [hcc, hod, huc, hcr]; exact h4

theorem connInv_step (c : ConnState) (s : CStep) (h : connInv c) :
    connInv (step c s) := by
  obtain ⟨h1, h2, h3, h4⟩ := h
  cases s with
  | read n e =>
    obtain ⟨_, _, f3, f4, f5, f6, f7, f8⟩ := Read_fst_fields c n e
    exact connInv_of_eq c _ f8 f7 f4 f3 f5 f6 ⟨h1, h2, h3, h4⟩
  | write n e =>
    obtain ⟨_, _, f3, f4, f5, f6, f7, f8⟩ := Write_fst_fields c n e
    exact connInv_of_eq c _ f8 f7 f4 f3 f5 f6 ⟨h1, h2, h3, h4⟩
  | closeCall u =>
    cases hod : c.onceDone with
    | true =>
      have hstep : step c (.closeCall u) = c := by simp [step, Close, hod]
      rw [hstep]; exact ⟨h1, h2, h3, h4⟩
    | false =>
      have hstep : step c (.closeCall u) =
          { c with onceDone := true, underlyingClosed := true,
                   closedCh := true, closeReturned := true } := by
        simp [step, Close, hod]
      rw [hstep]
      exact ⟨h1, h2, fun _ => rfl, fun _ => ⟨rfl, rfl, rfl⟩⟩
  | tracker =>
    cases hte : c.trackerExited with
    | true =>
      have hstep : step c .tracker = c := by simp [step, trackStep, hte]
      rw [hstep]; exact ⟨h1, h2, h3, h4⟩
    | false =>
      cases hcc : c.closedCh with
      | true =>
        have hz : c.finalFlushes = 0 := by
          rcases Nat.eq_or_lt_of_le h1 with hx | hx
          · exact absurd (h2.mpr hx) (by simp [hte])
          · omega
        have hstep : step c .tracker =
            { c with finalFlushes := c.finalFlushes + 1,
                     trackerExited := true } := by
          simp [step, trackStep, hte, hcc]
        rw [hstep]
        refine ⟨?_, ?_, ?_, ?_⟩
        · show c.finalFlushes + 1 ≤ 1
          omega
        · exact ⟨fun _ => by show c.finalFlushes + 1 = 1; omega, fun _ => rfl⟩
        · exact fun _ => hcc
        · exact fun _ => h4 hcc
      | false =>
        have hstep : step c .tracker = { c with calcs := c.calcs + 1 } := by
          simp [step, trackStep, hte, hcc]
        rw [hstep]
        exact ⟨h1, h2, h3, h4⟩

theorem connInv_exec (tr : List CStep) (c : ConnState) (h : connInv c) :
    connInv (exec c tr) := by
  induction tr generalizing c with
  | nil => exact h
  | cons s rest ih =>
    have hcons : exec c (s :: rest) = exec (step c s) rest := by
      simp [exec]
    rw [hcons]
    exact ih (step c s) (connInv_step c s h)

theorem exec_append (c : ConnState) (l1 l2 : List CStep) :
    exec c (l1 ++ l2) = exec (exec c l1) l2 := by
  simp [exec, List.foldl_append]

theorem exec_writes (ws : List (Nat × Option NetErr)) (c : ConnState) :
    (exec c (writesOf ws)).sentTotal = c.sentTotal + (ws.map Prod.fst).sum ∧
    (exec c (writesOf ws)).onceDone = c.onceDone ∧
    (exec c (writesOf ws)).closedCh = c.closedCh ∧
    (exec c (writesOf ws)).trackerExited = c.trackerExited ∧
    (exec c (writesOf ws)).finalFlushes = c.finalFlushes := by
  induction ws generalizing c with
  | nil => simp [writesOf, exec]
  | cons w rest ih =>
    have hcons : exec c (writesOf (w :: rest)) =
        exec ((Write c w.1 w.2).1) (writesOf rest) := by
      simp [writesOf, exec, step]
    obtain ⟨f1, _, f3, f4, _, _, f7, f8⟩ := Write_fst_fields c w.1 w.2
    obtain ⟨g1, g2, g3, g4, g5⟩ := ih ((Write c w.1 w.2).1)
    rw [hcons]
    refine ⟨?_, ?_, ?_, ?_, ?_⟩
    · rw [g1, f1]; simp [List.map_cons, List.sum_cons]; omega
    · rw [g2, f3]
    · rw [g3, f4]
    · rw [g4, f7]
    · rw [g5, f8]

/-- Claim C1, counterexample.  The claim states that the first call to
`Close` only returns after the tracking task has observed the shutdown
signal and performed the final flush, i.e. that in every interleaving in
which `Close` has returned at least one final flush has run.  It is false:
`conn.Close` (src/unnamed/part_002 lines 130-136) merely closes the
underlying connection and the `closedCh` channel and returns, with no
synchronisation with `track`; in the concrete schedule consisting of the
single `Close` step, `Close` has returned while no flush has run. -/
theorem C1_close_waits_for_flush_counterexample :
    (exec initConn [CStep.closeCall none]).closeReturned = true ∧
    (exec initConn [CStep.closeCall none]).finalFlushes = 0 := by
  decide

/-- Claim C1, amended.  The first call to `Close` closes the underlying
connection, signals the per-connection shutdown channel and returns the
underlying error immediately, performing no flush itself; the final flush
is performed at most once, only by the tracking task and only after the
shutdown signal, and the first tracking iteration scheduled after the
signal completes it — so statistics are fully settled once the tracking
task has run (e.g. when `onFinish` fires), not necessarily at the moment
`Close` returns. -/
theorem C1_close_signals_and_flush_follows (tr : List CStep)
    (c : ConnState) (uerr : Option NetErr) :
    (c.onceDone = false →
      (Close c uerr).1.underlyingClosed = true ∧
      (Close c uerr).1.closedCh = true ∧
      (Close c uerr).1.closeReturned = true ∧
      (Close c uerr).2 = uerr ∧
      (Close c uerr).1.finalFlushes = c.finalFlushes) ∧
    (exec initConn tr).finalFlushes ≤ 1 ∧
    ((exec initConn tr).finalFlushes = 1 → (exec initConn tr).closedCh = true) ∧
    ((exec initConn tr).closedCh = true →
      (exec initConn (tr ++ [CStep.tracker])).finalFlushes = 1) := by
  obtain ⟨h1, h2, h3, h4⟩ := connInv_exec tr initConn connInv_init
  refine ⟨?_, h1, h3, ?_⟩
  · intro h
    simp [Close, h]
  · intro hcc
    have happ : exec initConn (tr ++ [CStep.tracker]) =
        trackStep (exec initConn tr) := by
      rw [exec_append]; rfl
    rw [happ]
    cases hte : (exec initConn tr).trackerExited with
    | true =>
      have hone := h2.mp hte
      simpa [trackStep, hte] using hone
    | false =>
      have hz : (exec initConn tr).finalFlushes = 0 := by
        rcases Nat.eq_or_lt_of_le h1 with hx | hx
        · exact absurd (h2.mpr hx) (by simp [hte])
        · omega
      have hstep : trackStep (exec initConn tr) =
          { exec initConn tr with
              finalFlushes := (exec initConn tr).finalFlushes + 1,
              trackerExited := true } := by
        simp [trackStep, hte, hcc]
      rw [hstep]
      show (exec initConn tr).finalFlushes + 1 = 1
      omega

/-- Witness for the amended claim C1 at the concrete schedule `Close` then
one tracking iteration. -/
theorem C1_close_signals_and_flush_follows_witness :
    (Close initConn none).1.closedCh = true ∧
    (exec initConn ([CStep.closeCall none] ++ [CStep.tracker])).finalFlushes = 1 := by
  have h := C1_close_signals_and_flush_follows [CStep.closeCall none] initConn none
  exact ⟨(h.1 rfl).2.1, h.2.2.2 (by decide)⟩

/-- Claim C2.  For any sequence of `Write` calls whose returned byte counts
sum to `B`, after `Close` and the tracking task's final flush (which the
final state confirms has run exactly once), `Stats().SentTotal` equals `B`.
The `rater` implementation is absent from the snapshot; its lifetime total
is modelled from the spec as the sum of all bytes recorded by `advance`. -/
theorem C2_sent_total_after_close_flush (ws : List (Nat × Option NetErr))
    (uerr : Option NetErr) :
    (connStats (exec initConn
        (writesOf ws ++ [CStep.closeCall uerr, CStep.tracker]))).SentTotal =
      (ws.map Prod.fst).sum ∧
    (exec initConn
        (writesOf ws ++ [CStep.closeCall uerr, CStep.tracker])).finalFlushes = 1 := by
  obtain ⟨g1, g2, g3, g4, g5⟩ := exec_writes ws initConn
  have g2f : (exec initConn (writesOf ws)).onceDone = false := g2
  have g4f : (exec initConn (writesOf ws)).trackerExited = false := g4
  have g5z : (exec initConn (writesOf ws)).finalFlushes = 0 := g5
  have g1s : (exec initConn (writesOf ws)).sentTotal = (ws.map Prod.fst).sum := by
    rw [g1]; show 0 + _ = _; omega
  have happ : exec initConn (writesOf ws ++ [CStep.closeCall uerr, CStep.tracker]) =
      trackStep (Close (exec initConn (writesOf ws)) uerr).1 := by
    rw [exec_append]; rfl
  have hclose : (Close (exec initConn (writesOf ws)) uerr).1 =
      { exec initConn (writesOf ws) with
          onceDone := true, underlyingClosed := true,
          closedCh := true, closeReturned := true } := by
    simp [Close, g2f]
  have htrack : trackStep { exec initConn (writesOf ws) with
      onceDone := true, underlyingClosed := true,
      closedCh := true, closeReturned := true } =
      { exec initConn (writesOf ws) with
          onceDone := true, underlyingClosed := true,
          closedCh := true, closeReturned := true,
          finalFlushes := (exec initConn (writesOf ws)).finalFlushes + 1,
          trackerExited := true } := by
    simp [trackStep, g4f]
  rw [happ, hclose, htrack]
  constructor
  · show (exec initConn (writesOf ws)).sentTotal = (ws.map Prod.fst).sum
    exact g1s
  · show (exec initConn (writesOf ws)).finalFlushes + 1 = 1
    omega

/-- Claim C5.  `FirstError` after any interleaving is exactly the first
error the schedule makes reportable — the earliest non-timeout write error
or non-timeout, non-EOF read error; once set it never changes; and a
timeout followed by a successful operation (and an EOF read) leaves it
`nil`. -/
theorem C5_first_error (tr : List CStep) (c : ConnState) (e : NetErr) :
    FirstError (exec initConn tr) = (tr.filterMap reportable).head? ∧
    (FirstError c = some e → FirstError (exec c tr) = some e) ∧
    FirstError (exec initConn
      [CStep.write 3 (some { timeout := true, eof := false, tag := 0 }),
       CStep.read 0 (some { timeout := false, eof := true, tag := 1 }),
       CStep.write 5 none]) = none := by
  refine ⟨?_, ?_, by decide⟩
  · show (exec initConn tr).firstErr = _
    rw [exec_firstErr]
    rfl
  · intro h
    show (exec c tr).firstErr = some e
    rw [exec_firstErr]
    have hc : c.firstErr = some e := h
    rw [hc]
    rfl

/-- Witness for claim C5: a connection whose first-error slot already holds
an error keeps it across further steps. -/
theorem C5_first_error_witness :
    FirstError (exec { initConn with firstErr := some ⟨false, false, 7⟩ }
      [CStep.tracker, CStep.write 4 (some ⟨false, false, 9⟩)]) =
      some ⟨false, false, 7⟩ := by
  exact (C5_first_error [CStep.tracker, CStep.write 4 (some ⟨false, false, 9⟩)]
    { initConn with firstErr := some ⟨false, false, 7⟩ } ⟨false, false, 7⟩).2.1 rfl

/-- Claim C6.  `Close` is idempotent: the first call returns the underlying
connection's close result, a second call performs no action (the state is
unchanged, so in particular it cannot cause a second final flush under any
continuation of the schedule) and returns a nil error. -/
theorem C6_close_idempotent (c : ConnState) (u u' : Option NetErr)
    (tr : List CStep) :
    (c.onceDone = false → (Close c u).2 = u) ∧
    (Close (Close c u).1 u').1 = (Close c u).1 ∧
    (Close (Close c u).1 u').2 = none ∧
    (exec (Close (Close c u).1 u').1 tr).finalFlushes =
      (exec (Close c u).1 tr).finalFlushes := by
  have honce : (Close c u).1.onceDone = true := by
    cases h : c.onceDone <;> simp [Close, h]
  have hdone : ∀ d : ConnState, ∀ v : Option NetErr,
      d.onceDone = true → Close d v = (d, none) := by
    intro d v hd
    simp [Close, hd]
  have hsecond : Close (Close c u).1 u' = ((Close c u).1, none) :=
    hdone _ u' honce
  refine ⟨?_, ?_, ?_, ?_⟩
  · intro h; simp [Close, h]
  · rw [hsecond]
  · rw [hsecond]
  · rw [hsecond]

/-- Witness for claim C6 at a concrete connection: the first close returns
the underlying error, the second returns nil. -/
theorem C6_close_idempotent_witness :
    (Close initConn (some ⟨false, false, 3⟩)).2 = some ⟨false, false, 3⟩ ∧
    (Close (Close initConn (some ⟨false, false, 3⟩)).1 none).2 = none := by
  have h := C6_close_idempotent initConn (some ⟨false, false, 3⟩) none []
  exact ⟨h.1 rfl, h.2.2.1⟩

end MeasuredV2

namespace MeasuredV1

theorem burst_length (ss : List Stat) (q : List Stat) :
    (burst q ss).length ≤ max q.length chStatCap := by
  induction ss generalizing q with
  | nil => simp [burst]
  | cons s rest ih =>
    have hcons : burst q (s :: rest) = burst (trySend q s).1 rest := by
      simp [burst]
    rw [hcons]
    have hlen : (trySend q s).1.length ≤ max q.length chStatCap := by
      by_cases h : q.length < chStatCap
      · have : (trySend q s).1 = q ++ [s] := by simp [trySend, h]
        rw [this]
        simp
        omega
      · have : (trySend q s).1 = q := by simp [trySend, h]
        rw [this]
        exact le_max_left _ _
    have := ih (trySend q s).1
    omega

/-- Claim C7.  `submitError`/`submitTraffic` never block and never panic
(they are total functions built on the non-blocking `select`/`default`
send): with free capacity the sample is enqueued at the back of the
bounded queue, otherwise the queue and its buffered samples are unchanged
and the drop is flagged for logging; and any burst of submissions leaves
at most `max (initial length) 10` samples buffered. -/
theorem C7_submit_never_blocks (q : List Stat) (connID msg phase : String)
    (bytesIn bytesOut : Nat) (ss : List Stat) :
    (q.length < chStatCap →
      submitError q connID msg phase =
        (q ++ [.err { ID := connID, Err := errorText msg, Phase := phase }],
          false) ∧
      submitTraffic q connID bytesIn bytesOut =
        (q ++ [.traffic { ID := connID, BytesIn := bytesIn,
                          BytesOut := bytesOut }], false)) ∧
    (¬ q.length < chStatCap →
      submitError q connID msg phase = (q, true) ∧
      submitTraffic q connID bytesIn bytesOut = (q, true)) ∧
    (burst q ss).length ≤ max q.length chStatCap ∧
    (burst [] (List.replicate 15 (.traffic dfltTraffic))).length = 10 := by
  refine ⟨?_, ?_, burst_length ss q, by decide⟩
  · intro h
    constructor <;> simp [submitError, submitTraffic, trySend, h]
  · intro h
    constructor <;> simp [submitError, submitTraffic, trySend, h]

/-- Witness for claim C7: a concrete enqueue into a queue with room and a
concrete drop on a full queue. -/
theorem C7_submit_never_blocks_witness :
    submitTraffic [] "id" 1 2 =
      ([.traffic { ID := "id", BytesIn := 1, BytesOut := 2 }], false) ∧
    submitTraffic (List.replicate 10 (.traffic dfltTraffic)) "id" 1 2 =
      (List.replicate 10 (.traffic dfltTraffic), true) := by
  have h1 := C7_submit_never_blocks [] "id" "" "" 1 2 []
  have h2 := C7_submit_never_blocks (List.replicate 10 (.traffic dfltTraffic))
    "id" "" "" 1 2 []
  exact ⟨(h1.1 (by decide)).2, (h2.2.1 (by decide)).2⟩

/-- Claim C9.  The wrapper is transparent: `Read` and `Write` return
exactly the `(n, err)` pair of the underlying operation, `Close` returns
exactly the underlying close error on the call that closes, and a failed
dial through the wrapped dialer returns the underlying dial error
untouched. -/
theorem C9_wrapper_transparent (c : MeasuredV2.ConnState) (n : Nat)
    (e uerr : Option MeasuredV2.NetErr) (dialErr : String) (addr : String)
    (q : List Stat) :
    (MeasuredV2.Read c n e).2 = (n, e) ∧
    (MeasuredV2.Write c n e).2 = (n, e) ∧
    (c.onceDone = false → (MeasuredV2.Close c uerr).2 = uerr) ∧
    (Dialer (.error dialErr) addr q).1 = .failed dialErr := by
  refine ⟨?_, ?_, ?_, rfl⟩
  · cases e with
    | none => rfl
    | some x => simp [MeasuredV2.Read]
  · cases e with
    | none => rfl
    | some x => simp [MeasuredV2.Write]
  · intro h
    simp [MeasuredV2.Close, h]

/-- Witness for claim C9 at concrete values: a read result and a dial
error pass through unchanged, and the closing call returns the underlying
close error. -/
theorem C9_wrapper_transparent_witness :
    (MeasuredV2.Read MeasuredV2.initConn 10
      (some ⟨false, true, 0⟩)).2 = (10, some ⟨false, true, 0⟩) ∧
    (MeasuredV2.Close MeasuredV2.initConn (some ⟨false, false, 2⟩)).2 =
      some ⟨false, false, 2⟩ ∧
    (Dialer (.error "connection refused") "localhost:9999" []).1 =
      .failed "connection refused" := by
  have h := C9_wrapper_transparent MeasuredV2.initConn 10
    (some ⟨false, true, 0⟩) (some ⟨false, false, 2⟩) "connection refused"
    "localhost:9999" []
  exact ⟨h.1, h.2.2.1 rfl, h.2.2.2⟩

/-- Claim C10.  Wrapping a connection whose `RemoteAddr()` is nil panics:
`newConn` (src/unnamed/part_001 lines 347-366) raises the panic rather
than returning a wrapped connection or an error, on both the dialer's
success path and the listener's `Accept`. -/
theorem C10_nil_remote_addr_panics (c : RawConn) (addr : String)
    (q : List Stat) (h : c.remoteAddr = none) :
    newConn c = .error "nil remote address is not allowed" ∧
    Accept (.ok c) = .panicked "nil remote address is not allowed" ∧
    (Dialer (.ok c) addr q).1 =
      .panicked "nil remote address is not allowed" := by
    refine ⟨?_, ?_, ?_⟩ <;> simp [newConn, Accept, Dialer, h]

/-- Witness for claim C10 at the concrete connection with a nil remote
address. -/
theorem C10_nil_remote_addr_panics_witness :
    Accept (.ok { remoteAddr := none }) =
      .panicked "nil remote address is not allowed" :=
  (C10_nil_remote_addr_panics { remoteAddr := none } "a" [] rfl).2.1

end MeasuredV1

namespace MeasuredV1

theorem run_flushes_spec (evs : List RunEvent) (st : RunState) :
    ((run st evs).2.map Flush.errors) =
      specIntervalSamples errorOf st.errorList evs ∧
    ((run st evs).2.map Flush.latencies) =
      specIntervalSamples latencyOf st.latencyList evs ∧
    ((run st evs).2.map Flush.traffics) =
      specIntervalSamples trafficOf st.trafficList evs := by
  induction evs generalizing st with
  | nil => simp [run, specIntervalSamples]
  | cons ev rest ih =>
    cases ev with
    | stat s =>
      have h := ih (appendStat st s)
      cases s with
      | err e =>
        simpa [run, specIntervalSamples, appendStat, errorOf, latencyOf,
          trafficOf] using h
      | latency l =>
        simpa [run, specIntervalSamples, appendStat, errorOf, latencyOf,
          trafficOf] using h
      | traffic t =>
        simpa [run, specIntervalSamples, appendStat, errorOf, latencyOf,
          trafficOf] using h
    | tick =>
      have h := ih emptyRun
      simpa [run, specIntervalSamples, emptyRun] using h
    | stop => simp [run, specIntervalSamples]

/-- Claim C8.  The buffers flushed at each interval tick contain exactly
the samples of each kind received since the previous tick, in submission
order: on a tick the three pending buffers are swapped out for fresh empty
ones before the dispatched report computation, so no sample is counted in
more than one interval and no interval's flush mixes in samples from an
earlier or later interval. -/
theorem C8_interval_isolation (evs : List RunEvent) :
    ((run emptyRun evs).2.map Flush.errors) =
      specIntervalSamples errorOf [] evs ∧
    ((run emptyRun evs).2.map Flush.latencies) =
      specIntervalSamples latencyOf [] evs ∧
    ((run emptyRun evs).2.map Flush.traffics) =
      specIntervalSamples trafficOf [] evs :=
  run_flushes_spec evs emptyRun

end MeasuredV1

namespace MeasuredV1

theorem sorted_head_lb {α : Type} (f : α → Nat) (y : α) (ys : List α)
    (hs : (y :: ys).Sorted (fun a b => f a ≤ f b)) :
    ∀ z ∈ y :: ys, f y ≤ f z := by
  intro z hz
  rcases List.mem_cons.mp hz with rfl | hz2
  · exact le_refl _
  · exact (List.sorted_cons.mp hs).1 z hz2

theorem sorted_last_ub {α : Type} (f : α → Nat) :
    ∀ (l : List α) (hne : l ≠ []),
      l.Sorted (fun a b => f a ≤ f b) → ∀ z ∈ l, f z ≤ f (l.getLast hne) := by
  intro l
  induction l with
  | nil => intro hne; exact absurd rfl hne
  | cons x xs ih =>
    intro hne hs z hz
    cases xs with
    | nil =>
      have hzx : z = x := by simpa using hz
      subst hzx
      simp [List.getLast]
    | cons y ys =>
      have hne2 : y :: ys ≠ [] := List.cons_ne_nil y ys
      have hlast : (x :: y :: ys).getLast hne = (y :: ys).getLast hne2 :=
        List.getLast_cons hne2
      rcases List.mem_cons.mp hz with rfl | hz2
      · rw [hlast]
        exact (List.sorted_cons.mp hs).1 _ (List.getLast_mem hne2)
      · rw [hlast]
        exact ih hne2 (List.sorted_cons.mp hs).2 z hz2

theorem getLastD_of_ne_nil {α : Type} (l : List α) (d : α) (hne : l ≠ []) :
    l.getLast?.getD d = l.getLast hne := by
  rw [List.getLast?_eq_getLast_of_ne_nil hne]
  rfl

theorem getD_last_index {α : Type} (l : List α) (d : α) (hne : l ≠ []) :
    l.getD (l.length - 1) d = l.getLast hne := by
  have hpos : 0 < l.length := List.length_pos.mpr hne
  have hlen : l.length - 1 < l.length := by omega
  rw [List.getD_eq_getElem _ _ hlen, List.getLast_eq_getElem]

theorem sorted_getD_facts {α : Type} (f : α → Nat) (d : α) (s l : List α)
    (hperm : s.Perm l) (hs : s.Sorted (fun a b => f a ≤ f b))
    (hne : l ≠ []) :
    (f (s.getD 0 d) ∈ l.map f ∧ ∀ v ∈ l.map f, f (s.getD 0 d) ≤ v) ∧
    (f (s.getD (s.length - 1) d) ∈ l.map f ∧
      ∀ v ∈ l.map f, v ≤ f (s.getD (s.length - 1) d)) := by
  have hsne : s ≠ [] := by
    intro h
    subst h
    exact hne (List.Perm.nil_eq hperm).symm
  refine ⟨?_, ?_⟩
  · cases hse : s with
    | nil => exact absurd hse hsne
    | cons y ys =>
      subst hse
      have hhead : (y :: ys).getD 0 d = y := rfl
      rw [hhead]
      constructor
      · exact List.mem_map_of_mem f (hperm.mem_iff.mp (List.mem_cons_self y ys))
      · intro v hv
        obtain ⟨z, hz, rfl⟩ := List.mem_map.mp hv
        exact sorted_head_lb f y ys hs z (hperm.mem_iff.mpr hz)
  · rw [getD_last_index s d hsne]
    constructor
    · exact List.mem_map_of_mem f (hperm.mem_iff.mp (List.getLast_mem hsne))
    · intro v hv
      obtain ⟨z, hz, rfl⟩ := List.mem_map.mp hv
      exact sorted_last_ub f s hsne hs z (hperm.mem_iff.mpr hz)

theorem foldl_mod_sum {α : Type} (f : α → Nat) (l : List α) (a : Nat) :
    l.foldl (fun acc d => (acc + f d) % U64) (a % U64) = (a + (l.map f).sum) % U64 := by
  induction l generalizing a with
  | nil => simp
  | cons d rest ih =>
    simp only [List.foldl_cons, List.map_cons, List.sum_cons]
    have h1 : (a % U64 + f d) % U64 = (a + f d) % U64 := Nat.mod_add_mod a U64 (f d)
    rw [h1, ih (a + f d), Nat.add_assoc]

theorem trafficTracker_totals (k : String) (x : Traffic) (xs : List Traffic) :
    (trafficTrackerOf k (x :: xs)).TotalIn =
      (((x :: xs).map Traffic.BytesIn).sum) % U64 ∧
    (trafficTrackerOf k (x :: xs)).TotalOut =
      (((x :: xs).map Traffic.BytesOut).sum) % U64 := by
  constructor
  · show (x :: xs).foldl (fun acc d => (acc + d.BytesIn) % U64) 0 = _
    have h := foldl_mod_sum Traffic.BytesIn (x :: xs) 0
    rw [Nat.zero_mod] at h
    rw [h, Nat.zero_add]
  · show (x :: xs).foldl (fun acc d => (acc + d.BytesOut) % U64) 0 = _
    have h := foldl_mod_sum Traffic.BytesOut (x :: xs) 0
    rw [Nat.zero_mod] at h
    rw [h, Nat.zero_add]

theorem p95Index_lt (n : Nat) (h : 0 < n) : p95Index n < n := by
  show 19 * n / 20 < n
  rw [Nat.div_lt_iff_lt_mul (by omega : (0 : Nat) < 20)]
  omega

/-- Claim C3.  For a nonempty group of traffic samples submitted for one
identity in one interval (in submission order), the flushed
`TrafficTracker` has `TotalIn` equal to the sum of the `BytesIn` values
(`uint64` arithmetic; the sums are assumed below `2^64`, as in any real
interval), `MinIn`/`MaxIn` equal to the minimum/maximum `BytesIn`
(characterised as a member of the group that bounds every member), and
`LastIn` equal to the `BytesIn` of the last submitted sample, captured
before any sorting; the same holds for the `Out` direction, and the
concrete group `[10,20,30]` yields `TotalIn=60`, `MinIn=10`, `MaxIn=30`,
`LastIn=30`. -/
theorem C3_traffic_tracker_aggregates (k : String) (x : Traffic)
    (xs : List Traffic)
    (hIn : (((x :: xs).map Traffic.BytesIn).sum) < U64)
    (hOut : (((x :: xs).map Traffic.BytesOut).sum) < U64) :
    (trafficTrackerOf k (x :: xs)).TotalIn =
      ((x :: xs).map Traffic.BytesIn).sum ∧
    (trafficTrackerOf k (x :: xs)).TotalOut =
      ((x :: xs).map Traffic.BytesOut).sum ∧
    (trafficTrackerOf k (x :: xs)).MinIn ∈ (x :: xs).map Traffic.BytesIn ∧
    (∀ v ∈ (x :: xs).map Traffic.BytesIn,
      (trafficTrackerOf k (x :: xs)).MinIn ≤ v) ∧
    (trafficTrackerOf k (x :: xs)).MaxIn ∈ (x :: xs).map Traffic.BytesIn ∧
    (∀ v ∈ (x :: xs).map Traffic.BytesIn,
      v ≤ (trafficTrackerOf k (x :: xs)).MaxIn) ∧
    (trafficTrackerOf k (x :: xs)).LastIn =
      ((x :: xs).getLast (List.cons_ne_nil x xs)).BytesIn ∧
    (trafficTrackerOf k (x :: xs)).MinOut ∈ (x :: xs).map Traffic.BytesOut ∧
    (∀ v ∈ (x :: xs).map Traffic.BytesOut,
      (trafficTrackerOf k (x :: xs)).MinOut ≤ v) ∧
    (trafficTrackerOf k (x :: xs)).MaxOut ∈ (x :: xs).map Traffic.BytesOut ∧
    (∀ v ∈ (x :: xs).map Traffic.BytesOut,
      v ≤ (trafficTrackerOf k (x :: xs)).MaxOut) ∧
    (trafficTrackerOf k (x :: xs)).LastOut =
      ((x :: xs).getLast (List.cons_ne_nil x xs)).BytesOut ∧
    trafficTrackerOf "X"
      [{ ID := "X", BytesIn := 10, BytesOut := 1 },
       { ID := "X", BytesIn := 20, BytesOut := 2 },
       { ID := "X", BytesIn := 30, BytesOut := 3 }] =
      { ID := "X", MinIn := 10, MaxIn := 30, Percent95In := 30, LastIn := 30,
        TotalIn := 60, MinOut := 1, MaxOut := 3, Percent95Out := 3,
        LastOut := 3, TotalOut := 6 } := by
  have hne : (x :: xs) ≠ [] := List.cons_ne_nil x xs
  have hpermIn := List.perm_insertionSort leIn (x :: xs)
  have hsortIn := List.sorted_insertionSort leIn (x :: xs)
  have hpermOut2 := List.perm_insertionSort leOut (List.insertionSort leIn (x :: xs))
  have hsortOut := List.sorted_insertionSort leOut (List.insertionSort leIn (x :: xs))
  have hpermOut := hpermOut2.trans hpermIn
  have hInF := sorted_getD_facts Traffic.BytesIn dfltTraffic _ _ hpermIn hsortIn hne
  have hOutF := sorted_getD_facts Traffic.BytesOut dfltTraffic _ _ hpermOut hsortOut hne
  obtain ⟨htIn, htOut⟩ := trafficTracker_totals k x xs
  refine ⟨?_, ?_, hInF.1.1, hInF.1.2, hInF.2.1, hInF.2.2, ?_,
    hOutF.1.1, hOutF.1.2, hOutF.2.1, hOutF.2.2, ?_, by decide⟩
  · rw [htIn]
    exact Nat.mod_eq_of_lt hIn
  · rw [htOut]
    exact Nat.mod_eq_of_lt hOut
  · show ((x :: xs).getLast?.getD dfltTraffic).BytesIn = _
    rw [getLastD_of_ne_nil _ _ hne]
  · show ((x :: xs).getLast?.getD dfltTraffic).BytesOut = _
    rw [getLastD_of_ne_nil _ _ hne]

/-- Witness for claim C3 at the concrete per-interval group
`[10,20,30]` (with `BytesOut` values `[1,2,3]`). -/
theorem C3_traffic_tracker_aggregates_witness :
    (trafficTrackerOf "X"
      [{ ID := "X", BytesIn := 10, BytesOut := 1 },
       { ID := "X", BytesIn := 20, BytesOut := 2 },
       { ID := "X", BytesIn := 30, BytesOut := 3 }]).TotalIn =
      (([{ ID := "X", BytesIn := 10, BytesOut := 1 },
         { ID := "X", BytesIn := 20, BytesOut := 2 },
         { ID := "X", BytesIn := 30, BytesOut := 3 }] : List Traffic).map
        Traffic.BytesIn).sum ∧
    (trafficTrackerOf "X"
      [{ ID := "X", BytesIn := 10, BytesOut := 1 },
       { ID := "X", BytesIn := 20, BytesOut := 2 },
       { ID := "X", BytesIn := 30, BytesOut := 3 }]).LastIn =
      (([{ ID := "X", BytesIn := 10, BytesOut := 1 },
         { ID := "X", BytesIn := 20, BytesOut := 2 },
         { ID := "X", BytesIn := 30, BytesOut := 3 }] : List Traffic).getLast
        (List.cons_ne_nil _ _)).BytesIn := by
  have h := C3_traffic_tracker_aggregates "X"
    { ID := "X", BytesIn := 10, BytesOut := 1 }
    [{ ID := "X", BytesIn := 20, BytesOut := 2 },
     { ID := "X", BytesIn := 30, BytesOut := 3 }] (by decide) (by decide)
  exact ⟨h.1, h.2.2.2.2.2.2.1⟩

/-- Claim C4.  The 95th-percentile value of a group of `n` samples is the
element at zero-based index `floor(0.95*n)` of an ascending-sorted
permutation of the group (the conjuncts exhibit sortedness and the
permutation); the index never exceeds `n-1`, so clamping to `n-1` is a
no-op; consequently the p95 of a single-element group equals its value
(both directions, and for latency), and the p95 of the latencies
`{1,...,10}` is `10` (index `floor(0.95*10)=9`). -/
theorem C4_percentile_index (k : String) (x : Traffic) (xs : List Traffic)
    (y : Traffic) (lat : Latency) :
    (trafficTrackerOf k (x :: xs)).Percent95In =
      ((List.insertionSort leIn (x :: xs)).getD
        (p95Index (x :: xs).length) dfltTraffic).BytesIn ∧
    (List.insertionSort leIn (x :: xs)).Sorted leIn ∧
    (List.insertionSort leIn (x :: xs)).Perm (x :: xs) ∧
    p95Index (x :: xs).length =
      min (p95Index (x :: xs).length) ((x :: xs).length - 1) ∧
    (trafficTrackerOf k [y]).Percent95In = y.BytesIn ∧
    (trafficTrackerOf k [y]).Percent95Out = y.BytesOut ∧
    (latencyTrackerOf k [lat]).Percent95 = lat.Latency ∧
    latencyTrackerOf "I"
      [{ ID := "I", Latency := 1 }, { ID := "I", Latency := 2 },
       { ID := "I", Latency := 3 }, { ID := "I", Latency := 4 },
       { ID := "I", Latency := 5 }, { ID := "I", Latency := 6 },
       { ID := "I", Latency := 7 }, { ID := "I", Latency := 8 },
       { ID := "I", Latency := 9 }, { ID := "I", Latency := 10 }] =
      { ID := "I", Min := 1, Max := 10, Percent95 := 10, Last := 10 } := by
  have hlt := p95Index_lt (x :: xs).length (by simp)
  refine ⟨rfl, List.sorted_insertionSort leIn (x :: xs),
    List.perm_insertionSort leIn (x :: xs), by omega, ?_, ?_, ?_,
    by decide⟩
  · simp [trafficTrackerOf, p95Index, List.insertionSort, List.orderedInsert]
  · simp [trafficTrackerOf, p95Index, List.insertionSort, List.orderedInsert]
  · simp [latencyTrackerOf, p95Index, List.insertionSort, List.orderedInsert]

end MeasuredV1

